import Mathlib

/-
Verification of the embedded SQLite-backed Kafka-like broker
(src/src/streaming/simple/server.py) of the dw-dashborad repository.

The broker state is a shallow embedding of the four SQLite tables
(topics, messages, consumer_offsets, group_members); every operation of
SimpleKafkaServer used by the claims is translated into a pure Lean
function over that state.  SQL behaviours that matter are modelled
explicitly: row order of a table is insertion order, ORDER BY is an
explicit sort, MAX(offset) is a fold, and the timestamp comparison of
cleanup_old_messages is a comparison of the actual formatted strings
(CURRENT_TIMESTAMP uses "YYYY-MM-DD HH:MM:SS" while the Python cutoff
uses datetime.isoformat with a "T" separator).
-/

set_option linter.all false

namespace DwKafka

/-- Python runtime values, as the broker stores and transmits them.
json.dumps at the insert and json.loads at the read are modelled as
identity on this type (the payload is opaque to the broker, so atomic
values suffice; a container value would behave identically in every
operation below, which never inspects the payload). -/
inductive PyObj where
  | pynone : PyObj
  | pybool : Bool → PyObj
  | pyint : Int → PyObj
  | pystr : String → PyObj
  | pybytes : String → PyObj
deriving DecidableEq, Repr

/-- Python truthiness, as used by `if value` in SimpleKafkaProducer.send. -/
def truthy : PyObj → Bool
  | .pynone => false
  | .pybool b => b
  | .pyint n => n != 0
  | .pystr s => s != ""
  | .pybytes s => s != ""

/-- Calendar timestamp without sub-second part, the data both SQLite
CURRENT_TIMESTAMP and Python datetime carry on the fields the code
formats. -/
structure DateTime where
  year : Nat
  month : Nat
  day : Nat
  hour : Nat
  minute : Nat
  second : Nat
deriving DecidableEq, Repr

/-- Zero-padded two-digit decimal rendering. -/
def pad2 (n : Nat) : String :=
  if n < 10 then "0" ++ toString n else toString n

/-- Zero-padded four-digit decimal rendering. -/
def pad4 (n : Nat) : String :=
  if n < 10 then "000" ++ toString n
  else if n < 100 then "00" ++ toString n
  else if n < 1000 then "0" ++ toString n
  else toString n

/-- Format used by SQLite CURRENT_TIMESTAMP: "YYYY-MM-DD HH:MM:SS".
This is the string stored in the messages.timestamp column. -/
def sqliteTimestamp (d : DateTime) : String :=
  pad4 d.year ++ "-" ++ pad2 d.month ++ "-" ++ pad2 d.day ++ " " ++
    pad2 d.hour ++ ":" ++ pad2 d.minute ++ ":" ++ pad2 d.second

/-- Format used by Python datetime.isoformat() with microsecond = 0:
"YYYY-MM-DDTHH:MM:SS".  This is the cutoff string cleanup_old_messages
binds into its DELETE statement. -/
def isoTimestamp (d : DateTime) : String :=
  pad4 d.year ++ "-" ++ pad2 d.month ++ "-" ++ pad2 d.day ++ "T" ++
    pad2 d.hour ++ ":" ++ pad2 d.minute ++ ":" ++ pad2 d.second

/-- Subtraction of whole hours from a timestamp, modelling
datetime.now() - timedelta(hours=h).  Day borrow is handled; the model
is used only where the result stays inside the same month, which is the
case at every input appearing in this development. -/
def minusHours (d : DateTime) (h : Nat) : DateTime :=
  let total := d.day * 24 + d.hour
  let t := total - h
  { d with day := t / 24, hour := t % 24 }

/-- Chronological key of a timestamp: strictly monotone in calendar
order for valid dates (month ≤ 12, day ≤ 31).  Used to state which of
two instants is earlier. -/
def dtKey (d : DateTime) : Nat :=
  ((((d.year * 13 + d.month) * 32 + d.day) * 24 + d.hour) * 60 + d.minute) * 60 + d.second

/-- Row of the topics table. -/
structure TopicRow where
  topic_name : String
  partitions : Nat
  retention_hours : Nat
deriving DecidableEq, Repr

/-- Row of the messages table (the AUTOINCREMENT id is irrelevant to
every claim and is omitted; row order is insertion order). -/
structure MessageRow where
  topic : String
  partition : Nat
  offset : Int
  key : Option String
  value : PyObj
  timestamp : DateTime
deriving DecidableEq, Repr

/-- Row of the consumer_offsets table. -/
structure OffsetRow where
  group_id : String
  topic : String
  partition : Nat
  current_offset : Int
deriving DecidableEq, Repr

/-- Row of the group_members table; last_heartbeat is in seconds on an
abstract monotone clock (SQLite stores and compares these values in one
consistent CURRENT_TIMESTAMP format, so string order agrees with
chronological order there). -/
structure MemberRow where
  group_id : String
  member_id : String
  last_heartbeat : Nat
deriving DecidableEq, Repr

/-- Whole broker database: the four tables of _init_db. -/
structure ServerState where
  topics : List TopicRow
  messages : List MessageRow
  offsets : List OffsetRow
  members : List MemberRow
deriving DecidableEq, Repr

/-- Empty database, the state right after _init_db on a fresh file. -/
def initState : ServerState := ⟨[], [], [], []⟩

/-- SimpleKafkaServer.list_topics. -/
def list_topics (s : ServerState) : List String :=
  s.topics.map (·.topic_name)

/-- SimpleKafkaServer.create_topic: INSERT OR IGNORE into topics. -/
def create_topic (t : String) (p r : Nat) (s : ServerState) : ServerState :=
  if s.topics.any (fun row => row.topic_name == t) then s
  else { s with topics := s.topics ++ [⟨t, p, r⟩] }

/-- Offsets currently stored for one (topic, partition), in row order. -/
def partitionOffsets (t : String) (p : Nat) (s : ServerState) : List Int :=
  (s.messages.filter (fun m => m.topic == t && m.partition == p)).map (·.offset)

/-- SELECT COALESCE(MAX(offset), -1) + 1 for one (topic, partition). -/
def nextOffset (t : String) (p : Nat) (s : ServerState) : Int :=
  (partitionOffsets t p s).foldl max (-1) + 1

/-- SimpleKafkaServer.send_message: auto-create the topic when absent
(partitions 1, retention 24), compute the next offset from the current
MAX in the same transaction, insert the row, return the offset. -/
def send_message (t : String) (v : PyObj) (key : Option String) (p : Nat)
    (now : DateTime) (s : ServerState) : Int × ServerState :=
  let s1 := if (list_topics s).contains t then s else create_topic t 1 24 s
  let off := nextOffset t p s1
  (off, { s1 with messages := s1.messages ++ [⟨t, p, off, key, v, now⟩] })

/-- WHERE clause of consume_messages. -/
def msgMatches (t : String) (p : Nat) (fromOffset : Option Int) (m : MessageRow) : Bool :=
  m.topic == t && m.partition == p &&
    (match fromOffset with
     | some k => decide (k ≤ m.offset)
     | none => true)

/-- Insertion into a list kept sorted by offset. -/
def insertByOffset (m : MessageRow) : List MessageRow → List MessageRow
  | [] => [m]
  | x :: xs => if m.offset ≤ x.offset then m :: x :: xs else x :: insertByOffset m xs

/-- ORDER BY offset ASC, as an insertion sort. -/
def sortByOffset (l : List MessageRow) : List MessageRow :=
  l.foldr insertByOffset []

/-- SimpleKafkaServer.consume_messages: filter rows of the partition at
or after the optional from_offset, order by offset ascending, LIMIT. -/
def consume_messages (t : String) (p : Nat) (fromOffset : Option Int)
    (limit : Nat) (s : ServerState) : List MessageRow :=
  (sortByOffset (s.messages.filter (msgMatches t p fromOffset))).take limit

/-- Key predicate of the consumer_offsets PRIMARY KEY. -/
def offsetKeyIs (g t : String) (p : Nat) (r : OffsetRow) : Bool :=
  r.group_id == g && r.topic == t && r.partition == p

/-- INSERT ... ON CONFLICT(group_id, topic, partition) DO UPDATE on the
consumer_offsets rows. -/
def upsertOffset (g t : String) (p : Nat) (o : Int) (l : List OffsetRow) : List OffsetRow :=
  if l.any (offsetKeyIs g t p) then
    l.map (fun r => if offsetKeyIs g t p r then { r with current_offset := o } else r)
  else l ++ [⟨g, t, p, o⟩]

/-- SimpleKafkaServer.commit_offset. -/
def commit_offset (g t : String) (p : Nat) (o : Int) (s : ServerState) : ServerState :=
  { s with offsets := upsertOffset g t p o s.offsets }

/-- SimpleKafkaServer.get_committed_offset: row value, or 0 when the key
was never committed. -/
def get_committed_offset (g t : String) (p : Nat) (s : ServerState) : Int :=
  match s.offsets.find? (offsetKeyIs g t p) with
  | some r => r.current_offset
  | none => 0

/-- INSERT ... ON CONFLICT(group_id, member_id) DO UPDATE on the
group_members rows. -/
def upsertMember (g m : String) (now : Nat) (l : List MemberRow) : List MemberRow :=
  if l.any (fun r => r.group_id == g && r.member_id == m) then
    l.map (fun r =>
      if r.group_id == g && r.member_id == m then { r with last_heartbeat := now } else r)
  else l ++ [⟨g, m, now⟩]

/-- SimpleKafkaServer.register_consumer. -/
def register_consumer (g m : String) (now : Nat) (s : ServerState) : ServerState :=
  { s with members := upsertMember g m now s.members }

/-- Survival predicate of the stale-member DELETE: a row is kept iff its
heartbeat is not older than 30 seconds, regardless of its group. -/
def memberFresh (now : Nat) (r : MemberRow) : Bool :=
  !decide (r.last_heartbeat + 30 < now)

/-- Character-wise lexicographic comparison; on the ASCII member ids
and timestamps at hand this coincides with the byte-wise BINARY
collation SQLite uses for TEXT ordering and comparison. -/
def charListLt : List Char → List Char → Bool
  | [], [] => false
  | [], _ :: _ => true
  | _ :: _, [] => false
  | a :: as, b :: bs =>
    if a.val < b.val then true
    else if b.val < a.val then false
    else charListLt as bs

/-- Strict string comparison under the BINARY collation. -/
def strLtb (a b : String) : Bool := charListLt a.data b.data

/-- Insertion into a list of strings kept in BINARY-collation order. -/
def insertStrSorted (x : String) : List String → List String
  | [] => [x]
  | y :: ys => if !(strLtb y x) then x :: y :: ys else y :: insertStrSorted x ys

/-- ORDER BY member_id, as an insertion sort on strings. -/
def sortStrings (l : List String) : List String :=
  l.foldr insertStrSorted []

/-- SELECT member_id FROM group_members WHERE group_id = g ORDER BY
member_id, evaluated after the stale-member DELETE. -/
def liveSorted (now : Nat) (g : String) (s : ServerState) : List String :=
  sortStrings (((s.members.filter (memberFresh now)).filter
      (fun r => r.group_id == g)).map (·.member_id))

/-- Range assignment step of get_group_assignments (lines 156-167):
index of the member in the sorted live list, partitions_per_member =
max(1, partition_count // member_count), the last member takes every
partition from its start to the end.  Python range(a, b) is
List.range' a (b - a). -/
def rangeAssign (ms : List String) (m : String) (P : Nat) : List Nat :=
  let i := ms.indexOf m
  let M := ms.length
  let ppm := max 1 (P / M)
  let start := i * ppm
  if i = M - 1 then List.range' start (P - start)
  else List.range' start (min (start + ppm) P - start)

/-- SimpleKafkaServer.get_group_assignments: first DELETE every stale
member row of every group, then compute the sorted live member list of
the requested group; a requester outside that list, or a missing topic,
gets an empty assignment. -/
def get_group_assignments (now : Nat) (g t m : String) (s : ServerState) :
    List Nat × ServerState :=
  let s1 := { s with members := s.members.filter (memberFresh now) }
  let ms := liveSorted now g s
  if ms.contains m then
    match s1.topics.find? (fun r => r.topic_name == t) with
    | none => ([], s1)
    | some row => (rangeAssign ms m row.partitions, s1)
  else ([], s1)

/-- Expiry test of cleanup_old_messages: the stored CURRENT_TIMESTAMP
string of the message is compared, as TEXT, against the
datetime.isoformat() cutoff string of each topics row naming the
message's topic. -/
def messageExpired (topics : List TopicRow) (now : DateTime) (m : MessageRow) : Bool :=
  topics.any (fun row =>
    row.topic_name == m.topic &&
      strLtb (sqliteTimestamp m.timestamp) (isoTimestamp (minusHours now row.retention_hours)))

/-- SimpleKafkaServer.cleanup_old_messages: per topics row, DELETE FROM
messages WHERE topic = ? AND timestamp < cutoff. -/
def cleanup_old_messages (now : DateTime) (s : ServerState) : ServerState :=
  { s with messages := s.messages.filter (fun m => !(messageExpired s.topics now m)) }

/-- Result shape of get_topic_info reduced to the fields the claims use:
partition count and total message count. -/
structure TopicInfo where
  partition_count : Nat
  total_messages : Nat
deriving DecidableEq, Repr

/-- SimpleKafkaServer.get_topic_info: none models the not-found error
dict; the total counts messages of partitions 0..partition_count-1. -/
def get_topic_info (t : String) (s : ServerState) : Option TopicInfo :=
  match s.topics.find? (fun r => r.topic_name == t) with
  | none => none
  | some row =>
      some ⟨row.partitions,
        ((List.range row.partitions).map
          (fun p => (s.messages.filter (fun m => m.topic == t && m.partition == p)).length)).foldl
          (· + ·) 0⟩

/-- Post-serialization step of SimpleKafkaProducer.send: a bytes value
is opportunistically decoded back through json.loads (jsonLoads models
the library call; a failed decode keeps the bytes). -/
def bytesDecode (jsonLoads : String → Option PyObj) : PyObj → PyObj
  | .pybytes b =>
      match jsonLoads b with
      | some v => v
      | none => .pybytes b
  | v => v

/-- SimpleKafkaProducer.send against the in-process server reference
(the HTTP gateway path posts the same serialized value to an endpoint
that calls the same send_message).  The returned triple is what the
future-like MockFuture.get() resolves to: topic, partition, offset.
Note the guard `if value` of line 484: the serializer runs only on a
truthy value, a falsy value is replaced by None. -/
def producer_send (jsonLoads : String → Option PyObj) (serializer : PyObj → PyObj)
    (t : String) (v : PyObj) (key : Option String) (p : Nat) (now : DateTime)
    (s : ServerState) : (String × Nat × Int) × ServerState :=
  let serialized := if truthy v then serializer v else PyObj.pynone
  let final := bytesDecode jsonLoads serialized
  let r := send_message t final key p now s
  ((t, p, r.1), r.2)

/-
Storage-fault wrappers.  Every public operation of SimpleKafkaServer
wraps its whole body in try/except: when the SQLite interaction raises
at any point, the transaction is rolled back (state unchanged) and the
operation returns its sentinel instead of propagating.  A fault is
modelled as `some e` for the raised error e.
-/

/-- send_message under a possible storage fault: sentinel offset -1. -/
def send_message_op (fault : Option String) (t : String) (v : PyObj)
    (key : Option String) (p : Nat) (now : DateTime) (s : ServerState) : Int × ServerState :=
  match fault with
  | some _ => (-1, s)
  | none => send_message t v key p now s

/-- consume_messages under a possible storage fault: empty list. -/
def consume_messages_op (fault : Option String) (t : String) (p : Nat)
    (fromOffset : Option Int) (limit : Nat) (s : ServerState) : List MessageRow :=
  match fault with
  | some _ => []
  | none => consume_messages t p fromOffset limit s

/-- create_topic under a possible storage fault: logged, state kept. -/
def create_topic_op (fault : Option String) (t : String) (p r : Nat)
    (s : ServerState) : ServerState :=
  match fault with
  | some _ => s
  | none => create_topic t p r s

/-- commit_offset under a possible storage fault: logged, state kept. -/
def commit_offset_op (fault : Option String) (g t : String) (p : Nat) (o : Int)
    (s : ServerState) : ServerState :=
  match fault with
  | some _ => s
  | none => commit_offset g t p o s

/-- register_consumer under a possible storage fault: logged, state kept. -/
def register_consumer_op (fault : Option String) (g m : String) (now : Nat)
    (s : ServerState) : ServerState :=
  match fault with
  | some _ => s
  | none => register_consumer g m now s

/-- get_committed_offset under a possible storage fault: 0. -/
def get_committed_offset_op (fault : Option String) (g t : String) (p : Nat)
    (s : ServerState) : Int :=
  match fault with
  | some _ => 0
  | none => get_committed_offset g t p s

/-- list_topics under a possible storage fault: empty list. -/
def list_topics_op (fault : Option String) (s : ServerState) : List String :=
  match fault with
  | some _ => []
  | none => list_topics s

/-- get_group_assignments under a possible storage fault: empty
assignment, state kept. -/
def get_group_assignments_op (fault : Option String) (now : Nat) (g t m : String)
    (s : ServerState) : List Nat × ServerState :=
  match fault with
  | some _ => ([], s)
  | none => get_group_assignments now g t m s

/-
Traces of appends interleaved with retention runs, for the offset
claims.
-/

/-- One broker operation of an append/cleanup trace. -/
inductive BrokerOp where
  | send : String → PyObj → Option String → Nat → DateTime → BrokerOp
  | cleanup : DateTime → BrokerOp

/-- Whether a trace operation is a cleanup run. -/
def BrokerOp.isCleanup : BrokerOp → Bool
  | .send _ _ _ _ _ => false
  | .cleanup _ => true

/-- Offsets assigned by send_message to the given (topic, partition)
along a trace, in execution order. -/
def assignedOffsets (t : String) (p : Nat) : List BrokerOp → ServerState → List Int
  | [], _ => []
  | .send t1 v k p1 now :: ops, s =>
      (if t1 == t && p1 == p then [(send_message t1 v k p1 now s).1] else []) ++
        assignedOffsets t p ops (send_message t1 v k p1 now s).2
  | .cleanup now :: ops, s =>
      assignedOffsets t p ops (cleanup_old_messages now s)

/-- Number of appends to the given (topic, partition) in a trace. -/
def sendCount (t : String) (p : Nat) : List BrokerOp → Nat
  | [] => 0
  | .send t1 _ _ p1 _ :: ops =>
      (if t1 == t && p1 == p then 1 else 0) + sendCount t p ops
  | .cleanup _ :: ops => sendCount t p ops

/-
Helper lemmas.
-/

/-- Record update on the offset value leaves the key fields alone. -/
theorem offsetKeyIs_set_current (g t : String) (p : Nat) (o : Int) (r : OffsetRow) :
    offsetKeyIs g t p { r with current_offset := o } = offsetKeyIs g t p r := rfl

/-- When no early row matches, a lookup continues past those rows. -/
theorem find?_append_of_all_false {α : Type} (q : α → Bool) :
    ∀ (l1 l2 : List α), l1.any q = false → (l1 ++ l2).find? q = l2.find? q := by
  intro l1
  induction l1 with
  | nil => intro l2 _; rfl
  | cons x xs ih =>
    intro l2 h
    have hx : q x = false := by
      by_contra hx
      simp [List.any_cons, eq_true_of_ne_false hx] at h
    have hxs : xs.any q = false := by
      by_contra hxs
      simp [List.any_cons, eq_true_of_ne_false hxs] at h
    simp only [List.cons_append, List.find?, hx]
    exact ih l2 hxs

/-- Lookup along the UPDATE arm of the upsert. -/
theorem find?_map_updateOffset (g t : String) (p : Nat) (o : Int) :
    ∀ l : List OffsetRow, l.any (offsetKeyIs g t p) = true →
      ((l.map (fun r =>
          if offsetKeyIs g t p r then { r with current_offset := o } else r)).find?
            (offsetKeyIs g t p)).map (·.current_offset) = some o := by
  intro l
  induction l with
  | nil => intro h; simp at h
  | cons r l ih =>
    intro h
    by_cases hr : offsetKeyIs g t p r = true
    · rw [List.map_cons, if_pos hr, List.find?_cons_of_pos]
      · rfl
      · rw [offsetKeyIs_set_current]
        exact hr
    · have hbr : offsetKeyIs g t p r = false := eq_false_of_ne_true hr
      have hl : l.any (offsetKeyIs g t p) = true := by
        rcases List.any_eq_true.1 h with ⟨x, hx, hqx⟩
        rcases List.mem_cons.1 hx with rfl | hx2
        · exact absurd hqx hr
        · exact List.any_eq_true.2 ⟨x, hx2, hqx⟩
      rw [List.map_cons, if_neg hr, List.find?_cons_of_neg]
      · exact ih hl
      · rw [hbr]
        simp

/-- Lookup along the INSERT arm of the upsert. -/
theorem find?_append_newOffset (g t : String) (p : Nat) (o : Int) (l : List OffsetRow)
    (h : l.any (offsetKeyIs g t p) = false) :
    ((l ++ [OffsetRow.mk g t p o]).find? (offsetKeyIs g t p)).map (·.current_offset) = some o := by
  rw [find?_append_of_all_false _ _ _ h]
  simp [List.find?, offsetKeyIs]

/-- Lookup after an upsert finds the freshly written offset. -/
theorem find?_upsertOffset (g t : String) (p : Nat) (o : Int) (l : List OffsetRow) :
    ((upsertOffset g t p o l).find? (offsetKeyIs g t p)).map (·.current_offset) = some o := by
  by_cases h : l.any (offsetKeyIs g t p) = true
  · unfold upsertOffset
    rw [if_pos h]
    exact find?_map_updateOffset g t p o l h
  · have hf : l.any (offsetKeyIs g t p) = false := eq_false_of_ne_true h
    unfold upsertOffset
    rw [hf]
    simp only [Bool.false_eq_true, if_false]
    exact find?_append_newOffset g t p o l hf

/-- create_topic never touches the messages table. -/
theorem create_topic_messages (t : String) (p r : Nat) (s : ServerState) :
    (create_topic t p r s).messages = s.messages := by
  unfold create_topic
  split <;> rfl

/-- create_topic on an already existing topic is the identity. -/
theorem create_topic_of_exists (t : String) (p r : Nat) (s : ServerState)
    (h : s.topics.any (fun row => row.topic_name == t) = true) :
    create_topic t p r s = s := by
  unfold create_topic
  rw [if_pos h]

/-
C4 — commit_offset / get_committed_offset round trip.
-/

/-- C4: committing an offset for (group, topic, partition) and reading
it back returns exactly the committed value, whatever was stored for
that key before (unconditional last-writer-wins upsert); and a key that
was never committed reads as 0. -/
theorem commit_offset_roundtrip (g t : String) (p : Nat) (o : Int) (s : ServerState) :
    get_committed_offset g t p (commit_offset g t p o s) = o ∧
      (s.offsets.find? (offsetKeyIs g t p) = none → get_committed_offset g t p s = 0) := by
  constructor
  · have h := find?_upsertOffset g t p o s.offsets
    unfold get_committed_offset commit_offset
    cases hf : (upsertOffset g t p o s.offsets).find? (offsetKeyIs g t p) with
    | none => rw [hf] at h; simp at h
    | some r =>
        rw [hf] at h
        simpa using h
  · intro h
    unfold get_committed_offset
    rw [h]

/-- C4 witness: a concrete commit of offset 5 reads back as 5, and a
never-committed key reads as 0. -/
theorem commit_offset_roundtrip_witness :
    get_committed_offset "g" "t" 0 (commit_offset "g" "t" 0 5 initState) = 5 ∧
      get_committed_offset "g" "t" 0 initState = 0 :=
  ⟨(commit_offset_roundtrip "g" "t" 0 5 initState).1,
   (commit_offset_roundtrip "g" "t" 0 5 initState).2 (by decide)⟩

/-
C8 — idempotent topic creation.
-/

/-- C8: create_topic on an existing topic is a no-op raising no error,
and after two creations the stored partition count and retention are
the values of the first creation. -/
theorem create_topic_idempotent (t : String) (p1 r1 p2 r2 : Nat) (s : ServerState) :
    (s.topics.any (fun row => row.topic_name == t) = true → create_topic t p2 r2 s = s) ∧
      (s.topics.any (fun row => row.topic_name == t) = false →
        create_topic t p2 r2 (create_topic t p1 r1 s) = create_topic t p1 r1 s ∧
          ((create_topic t p1 r1 s).topics.find? (fun row => row.topic_name == t)).map
              (fun row => (row.partitions, row.retention_hours)) = some (p1, r1)) := by
  constructor
  · intro h
    exact create_topic_of_exists t p2 r2 s h
  · intro h
    have h1 : (create_topic t p1 r1 s).topics = s.topics ++ [⟨t, p1, r1⟩] := by
      unfold create_topic
      rw [if_neg (by simp [h])]
    have hany : (create_topic t p1 r1 s).topics.any (fun row => row.topic_name == t) = true := by
      rw [h1]
      simp [List.any_append]
    constructor
    · exact create_topic_of_exists t p2 r2 _ hany
    · rw [h1, find?_append_of_all_false _ _ _ h]
      simp [List.find?]

/-- C8 witness: creating topic "t" with 3 partitions twice yields
partition count 3 (and the first retention), not an error or 6. -/
theorem create_topic_idempotent_witness :
    create_topic "t" 3 24 (create_topic "t" 3 24 initState) = create_topic "t" 3 24 initState ∧
      ((create_topic "t" 3 24 initState).topics.find? (fun row => row.topic_name == "t")).map
          (fun row => (row.partitions, row.retention_hours)) = some (3, 24) :=
  (create_topic_idempotent "t" 3 24 3 24 initState).2 (by decide)

/-
C9 — storage faults are absorbed at the operation boundary.
-/

/-- C9: a storage-layer exception inside any Log Store operation is
caught at that operation boundary and never propagates: mutating
operations return their sentinel (send_message returns offset -1,
create_topic / commit_offset / register_consumer leave the state as it
was), and read operations return an empty or zero result; absent a
fault, each wrapper is exactly the pure operation. -/
theorem storage_fault_sentinels (e : String) (t g m : String) (v : PyObj)
    (key : Option String) (p r limit : Nat) (fromOffset : Option Int) (o : Int)
    (nowD : DateTime) (now : Nat) (s : ServerState) :
    send_message_op (some e) t v key p nowD s = (-1, s) ∧
      consume_messages_op (some e) t p fromOffset limit s = [] ∧
      create_topic_op (some e) t p r s = s ∧
      commit_offset_op (some e) g t p o s = s ∧
      register_consumer_op (some e) g m now s = s ∧
      get_committed_offset_op (some e) g t p s = 0 ∧
      list_topics_op (some e) s = [] ∧
      get_group_assignments_op (some e) now g t m s = ([], s) ∧
      send_message_op none t v key p nowD s = send_message t v key p nowD s ∧
      consume_messages_op none t p fromOffset limit s = consume_messages t p fromOffset limit s ∧
      create_topic_op none t p r s = create_topic t p r s ∧
      commit_offset_op none g t p o s = commit_offset g t p o s ∧
      register_consumer_op none g m now s = register_consumer g m now s ∧
      get_committed_offset_op none g t p s = get_committed_offset g t p s ∧
      list_topics_op none s = list_topics s ∧
      get_group_assignments_op none now g t m s = get_group_assignments now g t m s := by
  refine ⟨rfl, rfl, rfl, rfl, rfl, rfl, rfl, rfl, rfl, rfl, rfl, rfl, rfl, rfl, rfl, rfl⟩

/-
C10 — the stale-member sweep of get_group_assignments is global.
-/

/-- C10: every call to get_group_assignments rewrites the group_members
table to exactly the rows whose heartbeat is within 30 seconds, for
every group at once — the deletion predicate never looks at the group
of the row, so membership of groups other than the requested one is not
preserved either. -/
theorem assignment_sweep_deletes_all_groups (now : Nat) (g t m : String) (s : ServerState) :
    (get_group_assignments now g t m s).2.members = s.members.filter (memberFresh now) := by
  by_cases hm : m ∈ liveSorted now g s
  · cases hf : s.topics.find? (fun r => r.topic_name == t) with
    | none => simp [get_group_assignments, hm, hf]
    | some row => simp [get_group_assignments, hm, hf]
  · simp [get_group_assignments, hm]

/-
C5 — consume_messages returns the stored records at or after the bound,
in ascending offset order, capped at the limit; reading from a freshly
assigned offset returns the fresh record first.
-/

/-- WHERE clause with a bound, in propositional form. -/
theorem msgMatches_some_iff (t : String) (p : Nat) (k : Int) (m : MessageRow) :
    msgMatches t p (some k) m = true ↔ m.topic = t ∧ m.partition = p ∧ k ≤ m.offset := by
  simp [msgMatches, and_assoc]

/-- WHERE clause without a bound, in propositional form. -/
theorem msgMatches_none_iff (t : String) (p : Nat) (m : MessageRow) :
    msgMatches t p none m = true ↔ m.topic = t ∧ m.partition = p := by
  simp [msgMatches]

/-- Unfolding equation of the insertion sort. -/
theorem sortByOffset_cons (x : MessageRow) (xs : List MessageRow) :
    sortByOffset (x :: xs) = insertByOffset x (sortByOffset xs) := rfl

/-- Membership through one sorted insertion. -/
theorem mem_insertByOffset {a m : MessageRow} :
    ∀ {l : List MessageRow}, a ∈ insertByOffset m l ↔ a = m ∨ a ∈ l := by
  intro l
  induction l with
  | nil => simp [insertByOffset]
  | cons x xs ih =>
    unfold insertByOffset
    split
    · simp [List.mem_cons]
    · simp only [List.mem_cons, ih]
      tauto

/-- Sorting preserves membership. -/
theorem mem_sortByOffset {a : MessageRow} :
    ∀ {l : List MessageRow}, a ∈ sortByOffset l ↔ a ∈ l := by
  intro l
  induction l with
  | nil => simp [sortByOffset]
  | cons x xs ih =>
    rw [sortByOffset_cons, mem_insertByOffset]
    simp [ih]

/-- Length through one sorted insertion. -/
theorem length_insertByOffset (m : MessageRow) :
    ∀ l : List MessageRow, (insertByOffset m l).length = l.length + 1 := by
  intro l
  induction l with
  | nil => rfl
  | cons x xs ih =>
    unfold insertByOffset
    split
    · rfl
    · simp [ih]

/-- Sorting preserves length. -/
theorem length_sortByOffset :
    ∀ l : List MessageRow, (sortByOffset l).length = l.length := by
  intro l
  induction l with
  | nil => rfl
  | cons x xs ih => rw [sortByOffset_cons, length_insertByOffset, ih, List.length_cons]

/-- Sorted insertion preserves the ascending-offset invariant. -/
theorem pairwise_insertByOffset (m : MessageRow) :
    ∀ {l : List MessageRow}, l.Pairwise (fun a b => a.offset ≤ b.offset) →
      (insertByOffset m l).Pairwise (fun a b => a.offset ≤ b.offset) := by
  intro l
  induction l with
  | nil => intro _; simp [insertByOffset]
  | cons x xs ih =>
    intro h
    rcases List.pairwise_cons.1 h with ⟨hx, hxs⟩
    unfold insertByOffset
    split
    · refine List.pairwise_cons.2 ⟨?_, h⟩
      intro b hb
      rcases List.mem_cons.1 hb with rfl | hb2
      · assumption
      · exact le_trans (by assumption) (hx b hb2)
    · refine List.pairwise_cons.2 ⟨?_, ih hxs⟩
      intro b hb
      rcases mem_insertByOffset.1 hb with rfl | hb2
      · exact le_of_lt (lt_of_not_le (by assumption))
      · exact hx b hb2

/-- The insertion sort output is ascending in offsets. -/
theorem pairwise_sortByOffset :
    ∀ l : List MessageRow, (sortByOffset l).Pairwise (fun a b => a.offset ≤ b.offset) := by
  intro l
  induction l with
  | nil => simp [sortByOffset]
  | cons x xs ih => exact sortByOffset_cons x xs ▸ pairwise_insertByOffset x ih

/-- A fold of max never drops below its seed. -/
theorem foldl_max_init_le (l : List Int) (a : Int) : a ≤ l.foldl max a := by
  induction l generalizing a with
  | nil => exact le_refl a
  | cons x xs ih => exact le_trans (le_max_left a x) (ih (max a x))

/-- A fold of max dominates every list element. -/
theorem foldl_max_mem_le {x : Int} {l : List Int} (h : x ∈ l) :
    ∀ a : Int, x ≤ l.foldl max a := by
  induction l with
  | nil => cases h
  | cons y ys ih =>
    intro a
    rcases List.mem_cons.1 h with rfl | h2
    · exact le_trans (le_max_right a x) (foldl_max_init_le ys (max a x))
    · exact ih h2 (max a y)

/-- Every stored offset of a partition is below the next offset
send_message would hand out. -/
theorem offset_lt_nextOffset (t : String) (p : Nat) (s : ServerState) (m : MessageRow)
    (hm : m ∈ s.messages) (ht : m.topic = t) (hp : m.partition = p) :
    m.offset < nextOffset t p s := by
  have hmem : m.offset ∈ partitionOffsets t p s := by
    refine List.mem_map.2 ⟨m, List.mem_filter.2 ⟨hm, ?_⟩, rfl⟩
    simp [ht, hp]
  have h2 := foldl_max_mem_le hmem (-1)
  unfold nextOffset
  omega

/-- No stored record of the partition survives a from_offset bound equal
to the next free offset. -/
theorem filter_at_nextOffset_nil (t : String) (p : Nat) (s : ServerState) :
    s.messages.filter (msgMatches t p (some (nextOffset t p s))) = [] := by
  rw [List.filter_eq_nil]
  intro m hm hmt
  rcases (msgMatches_some_iff t p _ m).1 hmt with ⟨ht, hp, hk⟩
  exact absurd hk (not_le.2 (offset_lt_nextOffset t p s m hm ht hp))

/-- nextOffset only reads the messages table. -/
theorem nextOffset_create_topic (t t1 : String) (p p1 r1 : Nat) (s : ServerState) :
    nextOffset t p (create_topic t1 p1 r1 s) = nextOffset t p s := by
  unfold nextOffset partitionOffsets
  rw [create_topic_messages]

/-- The offset returned by send_message is the next offset of the
pre-state. -/
theorem send_message_fst (t : String) (v : PyObj) (key : Option String) (p : Nat)
    (now : DateTime) (s : ServerState) :
    (send_message t v key p now s).1 = nextOffset t p s := by
  by_cases hc : t ∈ list_topics s
  · simp [send_message, hc]
  · simp [send_message, hc, nextOffset_create_topic]

/-- send_message appends exactly one row carrying the returned offset. -/
theorem send_message_messages (t : String) (v : PyObj) (key : Option String) (p : Nat)
    (now : DateTime) (s : ServerState) :
    (send_message t v key p now s).2.messages =
      s.messages ++ [⟨t, p, nextOffset t p s, key, v, now⟩] := by
  by_cases hc : t ∈ list_topics s
  · simp [send_message, hc]
  · simp [send_message, hc, nextOffset_create_topic, create_topic_messages]

/-- C5: consume_messages only returns stored records of the requested
(topic, partition) at or after the bound when one is given (only of the
topic and partition when from_offset is omitted); in either mode the
result is in ascending offset order, holds at most limit records, is
every matching record whenever the match count does not exceed the
limit, and when it does exceed the limit the records kept are the
lowest-offset ones (every returned offset is at or below every omitted
matching offset); it is a pure function of its arguments, and a record
just produced is the first record read back from its assigned offset. -/
theorem consume_messages_spec (t : String) (p : Nat) (k : Int) (fo : Option Int)
    (L : Nat) (s : ServerState) :
    (∀ m ∈ consume_messages t p (some k) L s,
        m ∈ s.messages ∧ m.topic = t ∧ m.partition = p ∧ k ≤ m.offset)
    ∧ (∀ m ∈ consume_messages t p none L s, m ∈ s.messages ∧ m.topic = t ∧ m.partition = p)
    ∧ (consume_messages t p fo L s).Pairwise (fun a b => a.offset ≤ b.offset)
    ∧ (consume_messages t p fo L s).length ≤ L
    ∧ ((s.messages.filter (msgMatches t p fo)).length ≤ L →
        ∀ m ∈ s.messages, msgMatches t p fo m = true →
          m ∈ consume_messages t p fo L s)
    ∧ (∀ m1 ∈ consume_messages t p fo L s, ∀ m2 ∈ s.messages,
        msgMatches t p fo m2 = true → m2 ∉ consume_messages t p fo L s →
          m1.offset ≤ m2.offset)
    ∧ (1 ≤ L → ∀ (v : PyObj) (key : Option String) (now : DateTime),
        (consume_messages t p (some (send_message t v key p now s).1) L
            (send_message t v key p now s).2).head? =
          some ⟨t, p, (send_message t v key p now s).1, key, v, now⟩) := by
  refine ⟨?_, ?_, ?_, ?_, ?_, ?_, ?_⟩
  · intro m hm
    have h1 : m ∈ sortByOffset (s.messages.filter (msgMatches t p (some k))) :=
      List.take_subset L _ hm
    have h2 : m ∈ s.messages.filter (msgMatches t p (some k)) := mem_sortByOffset.1 h1
    rcases List.mem_filter.1 h2 with ⟨h3, h4⟩
    rcases (msgMatches_some_iff t p k m).1 h4 with ⟨ht, hp, hk⟩
    exact ⟨h3, ht, hp, hk⟩
  · intro m hm
    have h1 : m ∈ sortByOffset (s.messages.filter (msgMatches t p none)) :=
      List.take_subset L _ hm
    have h2 : m ∈ s.messages.filter (msgMatches t p none) := mem_sortByOffset.1 h1
    rcases List.mem_filter.1 h2 with ⟨h3, h4⟩
    rcases (msgMatches_none_iff t p m).1 h4 with ⟨ht, hp⟩
    exact ⟨h3, ht, hp⟩
  · exact List.Pairwise.sublist (List.take_sublist L _) (pairwise_sortByOffset _)
  · exact le_trans (List.length_take_le L _) (le_refl L)
  · intro hlen m hm hmatch
    have hlen2 : (sortByOffset (s.messages.filter (msgMatches t p fo))).length ≤ L := by
      rw [length_sortByOffset]
      exact hlen
    unfold consume_messages
    rw [List.take_of_length_le hlen2]
    exact mem_sortByOffset.2 (List.mem_filter.2 ⟨hm, hmatch⟩)
  · intro m1 hm1 m2 hm2 hmatch hnot
    have hconsume : consume_messages t p fo L s =
        (sortByOffset (s.messages.filter (msgMatches t p fo))).take L := rfl
    have hsorted := pairwise_sortByOffset (s.messages.filter (msgMatches t p fo))
    have hsplit := List.take_append_drop L
      (sortByOffset (s.messages.filter (msgMatches t p fo)))
    rw [← hsplit] at hsorted
    rcases List.pairwise_append.1 hsorted with ⟨_, _, hcross⟩
    have hm2sorted : m2 ∈ sortByOffset (s.messages.filter (msgMatches t p fo)) :=
      mem_sortByOffset.2 (List.mem_filter.2 ⟨hm2, hmatch⟩)
    rw [← hsplit] at hm2sorted
    rcases List.mem_append.1 hm2sorted with h | h
    · exact absurd h (hconsume ▸ hnot)
    · exact hcross m1 (hconsume ▸ hm1) m2 h
  · intro hL v key now
    rw [send_message_fst]
    unfold consume_messages
    rw [send_message_messages, List.filter_append, filter_at_nextOffset_nil]
    have hnew : msgMatches t p (some (nextOffset t p s))
        (⟨t, p, nextOffset t p s, key, v, now⟩ : MessageRow) = true := by
      simp [msgMatches]
    rw [List.nil_append]
    simp only [List.filter_cons, hnew, if_true, List.filter_nil]
    cases L with
    | zero => cases hL
    | succ n => rfl

/-- Concrete store for the C5 witness: topic "t" with two records in
partition 0 at offsets 0 and 1. -/
def stateC5 : ServerState :=
  ⟨[⟨"t", 1, 24⟩],
   [⟨"t", 0, 0, none, .pyint 1, ⟨2026, 10, 12, 9, 0, 0⟩⟩,
    ⟨"t", 0, 1, none, .pyint 2, ⟨2026, 10, 12, 9, 5, 0⟩⟩], [], []⟩

/-- Append instant for the C5 witness. -/
def dateC5 : DateTime := ⟨2026, 10, 12, 10, 0, 0⟩

/-- C5 witness: on a concrete store, the round-trip hypothesis 1 ≤ 5 is
discharged and a freshly produced record is the first record read back
from its assigned offset. -/
theorem consume_messages_spec_witness :
    1 ≤ 5 ∧
      (consume_messages "t" 0 (some (send_message "t" (.pyint 3) none 0 dateC5 stateC5).1) 5
          (send_message "t" (.pyint 3) none 0 dateC5 stateC5).2).head? =
        some ⟨"t", 0, (send_message "t" (.pyint 3) none 0 dateC5 stateC5).1, none,
          .pyint 3, dateC5⟩ :=
  ⟨by decide,
   (consume_messages_spec "t" 0 1 (some 1) 5 stateC5).2.2.2.2.2.2 (by decide)
     (.pyint 3) none dateC5⟩

/-
C1 — offset assignment along traces of appends and retention runs.
-/

/-- An append to the observed partition extends its stored offsets by
the next offset. -/
theorem partitionOffsets_send_same (t : String) (p : Nat) (v : PyObj)
    (key : Option String) (now : DateTime) (s : ServerState) :
    partitionOffsets t p (send_message t v key p now s).2 =
      partitionOffsets t p s ++ [nextOffset t p s] := by
  unfold partitionOffsets
  rw [send_message_messages, List.filter_append, List.map_append]
  simp [partitionOffsets]

/-- An append to another partition leaves the observed offsets alone. -/
theorem partitionOffsets_send_other (t t1 : String) (p p1 : Nat) (v : PyObj)
    (key : Option String) (now : DateTime) (s : ServerState)
    (h : (t1 == t && p1 == p) = false) :
    partitionOffsets t p (send_message t1 v key p1 now s).2 = partitionOffsets t p s := by
  unfold partitionOffsets
  rw [send_message_messages, List.filter_append, List.map_append]
  have hnew : (fun m : MessageRow => m.topic == t && m.partition == p)
      (⟨t1, p1, nextOffset t1 p1 s, key, v, now⟩ : MessageRow) = false := h
  simp [partitionOffsets, hnew]

/-- Maximum of the offsets 0..c-1 with seed -1. -/
theorem foldl_max_range_map :
    ∀ c : Nat, ((List.range c).map Int.ofNat).foldl max (-1) = (c : Int) - 1 := by
  intro c
  induction c with
  | zero => decide
  | succ n ih =>
    rw [List.range_succ, List.map_append, List.foldl_append, ih]
    simp only [List.map_cons, List.map_nil, List.foldl_cons, List.foldl_nil]
    show max ((n : Int) - 1) ((n : Int)) = ((n + 1 : Nat) : Int) - 1
    rw [max_eq_right (by omega)]
    push_cast
    ring

/-- Along a cleanup-free trace from a state whose partition holds
exactly the offsets 0..c-1, the assigned offsets continue contiguously
from c. -/
theorem assignedOffsets_noCleanup (t : String) (p : Nat) :
    ∀ (ops : List BrokerOp) (s : ServerState) (c : Nat),
      (∀ op ∈ ops, op.isCleanup = false) →
      partitionOffsets t p s = (List.range c).map Int.ofNat →
      assignedOffsets t p ops s = (List.range' c (sendCount t p ops)).map Int.ofNat := by
  intro ops
  induction ops with
  | nil => intro s c _ _; rfl
  | cons op ops ih =>
    intro s c hnc hpo
    cases op with
    | cleanup now =>
      have := hnc (BrokerOp.cleanup now) (List.mem_cons_self _ _)
      simp [BrokerOp.isCleanup] at this
    | send t1 v k1 p1 now =>
      have hnc2 : ∀ op ∈ ops, op.isCleanup = false :=
        fun op h => hnc op (List.mem_cons_of_mem _ h)
      have hnext : nextOffset t p s = (c : Int) := by
        unfold nextOffset
        rw [hpo, foldl_max_range_map]
        omega
      cases hm : (t1 == t && p1 == p) with
      | true =>
        rw [Bool.and_eq_true] at hm
        have ht1 : t1 = t := by simpa using hm.1
        have hp1 : p1 = p := by simpa using hm.2
        rw [ht1, hp1]
        have hpo2 : partitionOffsets t p (send_message t v k1 p now s).2 =
            (List.range (c + 1)).map Int.ofNat := by
          rw [partitionOffsets_send_same, hpo, hnext, List.range_succ, List.map_append]
          rfl
        have hcount : sendCount t p (BrokerOp.send t v k1 p now :: ops) =
            sendCount t p ops + 1 := by
          simp only [sendCount, beq_self_eq_true, Bool.and_self, if_true]
          omega
        rw [hcount]
        simp only [assignedOffsets, beq_self_eq_true, Bool.and_self, if_true]
        rw [send_message_fst, hnext, ih _ (c + 1) hnc2 hpo2]
        rfl
      | false =>
        have hpo2 : partitionOffsets t p (send_message t1 v k1 p1 now s).2 =
            (List.range c).map Int.ofNat := by
          rw [partitionOffsets_send_other t t1 p p1 v k1 now s hm, hpo]
        have hcount : sendCount t p (BrokerOp.send t1 v k1 p1 now :: ops) =
            sendCount t p ops := by
          simp [sendCount, hm]
        simp only [assignedOffsets, hm, Bool.false_eq_true, if_false, List.nil_append,
          ih _ c hnc2 hpo2, hcount]

/-- Trace refuting C1 as stated: one append to ("t", 0) at an old
instant, a retention run a day later (the auto-created topic keeps the
default 24h retention, so the message is deleted), then a second
append.  send_message recomputes MAX(offset) over the now-empty
partition and hands out offset 0 again. -/
def traceC1 : List BrokerOp :=
  [.send "t" (.pyint 1) none 0 ⟨2026, 10, 10, 12, 0, 0⟩,
   .cleanup ⟨2026, 10, 12, 23, 0, 0⟩,
   .send "t" (.pyint 2) none 0 ⟨2026, 10, 12, 23, 30, 0⟩]

/-- C1 counterexample: along traceC1 the offsets assigned in partition
("t", 0) are [0, 0] — the offset 0 deleted by retention is assigned a
second time, so the assigned offsets are neither strictly increasing
nor free of duplicates. -/
theorem offsets_reused_after_retention :
    assignedOffsets "t" 0 traceC1 initState = [0, 0] ∧
      ¬ (assignedOffsets "t" 0 traceC1 initState).Nodup := by
  exact ⟨by decide, by decide⟩

/-- C1 amended: along every cleanup-free trace from the fresh broker,
the offsets assigned by send_message in a (topic, partition) are
exactly 0, 1, ..., n-1 in order, contiguous and never repeated; a
cleanup_old_messages run that empties a partition resets the MAX-based
offset computation, so deleted offsets can be assigned again
(offsets_reused_after_retention). -/
theorem assignedOffsets_contiguous_without_cleanup (t : String) (p : Nat)
    (ops : List BrokerOp) (h : ∀ op ∈ ops, op.isCleanup = false) :
    assignedOffsets t p ops initState =
      (List.range (sendCount t p ops)).map Int.ofNat := by
  have h0 : partitionOffsets t p initState = (List.range 0).map Int.ofNat := rfl
  rw [assignedOffsets_noCleanup t p ops initState 0 h h0, ← List.range_eq_range']

/-- Cleanup-free trace for the C1 witness: three appends to ("t", 0)
with an interleaved append to another partition. -/
def traceC1w : List BrokerOp :=
  [.send "t" (.pyint 1) none 0 ⟨2026, 10, 12, 9, 0, 0⟩,
   .send "t" (.pyint 2) none 1 ⟨2026, 10, 12, 9, 1, 0⟩,
   .send "t" (.pyint 3) none 0 ⟨2026, 10, 12, 9, 2, 0⟩,
   .send "other" (.pyint 4) none 0 ⟨2026, 10, 12, 9, 3, 0⟩,
   .send "t" (.pyint 5) none 0 ⟨2026, 10, 12, 9, 4, 0⟩]

/-- C1 witness: the cleanup-free hypothesis is discharged on traceC1w
and the assigned offsets of ("t", 0) come out as range 3. -/
theorem assignedOffsets_contiguous_without_cleanup_witness :
    (∀ op ∈ traceC1w, op.isCleanup = false) ∧
      assignedOffsets "t" 0 traceC1w initState =
        (List.range (sendCount "t" 0 traceC1w)).map Int.ofNat :=
  ⟨by decide, assignedOffsets_contiguous_without_cleanup "t" 0 traceC1w (by decide)⟩

/-
C2, C3 — range assignment of partitions to group members.
-/

/-- rangeAssign with its local definitions written out. -/
theorem rangeAssign_eq (ms : List String) (m : String) (P : Nat) :
    rangeAssign ms m P =
      if ms.indexOf m = ms.length - 1 then
        List.range' (ms.indexOf m * max 1 (P / ms.length))
          (P - ms.indexOf m * max 1 (P / ms.length))
      else
        List.range' (ms.indexOf m * max 1 (P / ms.length))
          (min (ms.indexOf m * max 1 (P / ms.length) + max 1 (P / ms.length)) P -
            ms.indexOf m * max 1 (P / ms.length)) := rfl

/-- Membership in a range assignment, in arithmetic form. -/
theorem mem_rangeAssign (ms : List String) (m : String) (P q : Nat) :
    q ∈ rangeAssign ms m P ↔
      (ms.indexOf m * max 1 (P / ms.length) ≤ q ∧
        q < (if ms.indexOf m = ms.length - 1 then P
             else min (ms.indexOf m * max 1 (P / ms.length) + max 1 (P / ms.length)) P)) := by
  rw [rangeAssign_eq]
  by_cases h : ms.indexOf m = ms.length - 1
  · rw [if_pos h, if_pos h, List.mem_range'_1]
    generalize ms.indexOf m * max 1 (P / ms.length) = a
    omega
  · rw [if_neg h, if_neg h, List.mem_range'_1]
    generalize ms.indexOf m * max 1 (P / ms.length) = a
    generalize max 1 (P / ms.length) = b
    omega

/-- Every assigned partition index is below the partition count. -/
theorem rangeAssign_lt (ms : List String) (m : String) (P q : Nat)
    (h : q ∈ rangeAssign ms m P) : q < P := by
  rw [mem_rangeAssign] at h
  rcases h with ⟨h1, h2⟩
  by_cases hc : ms.indexOf m = ms.length - 1
  · rw [if_pos hc] at h2
    exact h2
  · rw [if_neg hc] at h2
    exact lt_of_lt_of_le h2 (min_le_right _ _)

/-- Every partition below the count is assigned to some member: the
member at index min(q / ppm, M-1) of the sorted list owns q. -/
theorem rangeAssign_cover (ms : List String) (P : Nat) (hnd : ms.Nodup) (hne : ms ≠ [])
    (q : Nat) (hq : q < P) : ∃ m ∈ ms, q ∈ rangeAssign ms m P := by
  have hM : 0 < ms.length := List.length_pos.2 hne
  have hppm : 0 < max 1 (P / ms.length) :=
    Nat.lt_of_lt_of_le Nat.zero_lt_one (le_max_left _ _)
  have hd1 : q / max 1 (P / ms.length) * max 1 (P / ms.length) ≤ q :=
    Nat.div_mul_le_self q _
  have hd2 : q < q / max 1 (P / ms.length) * max 1 (P / ms.length) + max 1 (P / ms.length) := by
    have h3 : q / max 1 (P / ms.length) * max 1 (P / ms.length) + q % max 1 (P / ms.length)
        = q := by
      rw [Nat.mul_comm]
      exact Nat.div_add_mod q _
    have h4 : q % max 1 (P / ms.length) < max 1 (P / ms.length) := Nat.mod_lt q hppm
    omega
  by_cases hcase : ms.length - 1 ≤ q / max 1 (P / ms.length)
  · have hlt : ms.length - 1 < ms.length := by omega
    refine ⟨ms.get ⟨ms.length - 1, hlt⟩, List.get_mem ms _ _, ?_⟩
    have hidx : ms.indexOf (ms.get ⟨ms.length - 1, hlt⟩) = ms.length - 1 := by
      have h5 := List.indexOf_getElem hnd (ms.length - 1) hlt
      simpa [List.get_eq_getElem] using h5
    rw [mem_rangeAssign, hidx, if_pos rfl]
    refine ⟨?_, hq⟩
    calc (ms.length - 1) * max 1 (P / ms.length)
        ≤ q / max 1 (P / ms.length) * max 1 (P / ms.length) :=
          Nat.mul_le_mul_right _ hcase
      _ ≤ q := hd1
  · have hdlt : q / max 1 (P / ms.length) < ms.length := by omega
    refine ⟨ms.get ⟨q / max 1 (P / ms.length), hdlt⟩, List.get_mem ms _ _, ?_⟩
    have hidx : ms.indexOf (ms.get ⟨q / max 1 (P / ms.length), hdlt⟩)
        = q / max 1 (P / ms.length) := by
      have h5 := List.indexOf_getElem hnd (q / max 1 (P / ms.length)) hdlt
      simpa [List.get_eq_getElem] using h5
    rw [mem_rangeAssign, hidx, if_neg (by omega)]
    exact ⟨hd1, lt_min hd2 hq⟩

/-- No partition is assigned to two members, ordered case. -/
theorem rangeAssign_disjoint_lt (ms : List String) (P : Nat) (m1 m2 : String)
    (h2 : m2 ∈ ms) (hlt : ms.indexOf m1 < ms.indexOf m2) (q : Nat)
    (hq1 : q ∈ rangeAssign ms m1 P) (hq2 : q ∈ rangeAssign ms m2 P) : False := by
  have hi2 : ms.indexOf m2 < ms.length := List.indexOf_lt_length.2 h2
  have hne1 : ms.indexOf m1 ≠ ms.length - 1 := by omega
  rw [mem_rangeAssign] at hq1 hq2
  rw [if_neg hne1] at hq1
  have hub : q < ms.indexOf m1 * max 1 (P / ms.length) + max 1 (P / ms.length) :=
    lt_of_lt_of_le hq1.2 (min_le_left _ _)
  have hstep : (ms.indexOf m1 + 1) * max 1 (P / ms.length) ≤
      ms.indexOf m2 * max 1 (P / ms.length) :=
    Nat.mul_le_mul_right _ (by omega)
  have hlow : ms.indexOf m2 * max 1 (P / ms.length) ≤ q := hq2.1
  rw [Nat.succ_mul] at hstep
  omega

/-- No partition is assigned to two distinct members. -/
theorem rangeAssign_disjoint (ms : List String) (P : Nat) (m1 m2 : String)
    (h1 : m1 ∈ ms) (h2 : m2 ∈ ms) (hne : m1 ≠ m2) (q : Nat)
    (hq1 : q ∈ rangeAssign ms m1 P) (hq2 : q ∈ rangeAssign ms m2 P) : False := by
  have hi1 : ms.indexOf m1 < ms.length := List.indexOf_lt_length.2 h1
  have hi2 : ms.indexOf m2 < ms.length := List.indexOf_lt_length.2 h2
  have hidx : ms.indexOf m1 ≠ ms.indexOf m2 := by
    intro he
    apply hne
    have e1 : ms.get ⟨ms.indexOf m1, hi1⟩ = m1 := List.indexOf_get hi1
    have e2 : ms.get ⟨ms.indexOf m2, hi2⟩ = m2 := List.indexOf_get hi2
    rw [← e1, ← e2]
    exact congrArg ms.get (Fin.ext he)
  rcases Nat.lt_or_ge (ms.indexOf m1) (ms.indexOf m2) with h | h
  · exact rangeAssign_disjoint_lt ms P m1 m2 h2 h q hq1 hq2
  · exact rangeAssign_disjoint_lt ms P m2 m1 h1 (by omega) q hq2 hq1

/-- Under the hypotheses that the sorted live member list is ms, the
requester is in it, and the topic row exists, get_group_assignments
returns exactly the range assignment step. -/
theorem gga_fst_eq_rangeAssign (now : Nat) (g t m : String) (s : ServerState)
    (ms : List String) (row : TopicRow)
    (hms : liveSorted now g s = ms) (hm : m ∈ ms)
    (ht : s.topics.find? (fun r => r.topic_name == t) = some row) :
    (get_group_assignments now g t m s).1 = rangeAssign ms m row.partitions := by
  have hm2 : m ∈ liveSorted now g s := hms ▸ hm
  simp [get_group_assignments, hms, hm2, hm, ht]

/-- Concrete broker for the C2 counterexample: topic "t" with 2
partitions, three fresh members a, b, c of group "g". -/
def stateC2 : ServerState :=
  ⟨[⟨"t", 2, 24⟩], [], [],
   [⟨"g", "a", 100⟩, ⟨"g", "b", 100⟩, ⟨"g", "c", 100⟩]⟩

/-- C2 counterexample: with P = 2 partitions and M = 3 members the
claim says the last member "c" receives every partition from
(M-1)*floor(P/M) = 0 up to P-1 (so [0, 1]) while "a" receives
floor(2/3) = 0 partitions (so []).  The code instead uses
partitions_per_member = max(1, P // M) = 1, giving "a" the list [0]
and "c" the empty list. -/
theorem range_assignment_formula_counterexample :
    (get_group_assignments 100 "g" "t" "c" stateC2).1 = [] ∧
      (get_group_assignments 100 "g" "t" "a" stateC2).1 = [0] ∧
      ¬ ((get_group_assignments 100 "g" "t" "c" stateC2).1 = [0, 1] ∧
          (get_group_assignments 100 "g" "t" "a" stateC2).1 = []) :=
  ⟨by decide, by decide, by decide⟩

/-- C2 amended: for a topic with P partitions and a sorted live member
list of size M containing the requester at index i, every member gets
the consecutive block of ppm = max(1, floor(P/M)) partitions starting
at i*ppm and clipped at P, except that the member at index M-1 instead
receives every partition from (M-1)*ppm up to P-1 (possibly none when
that start lies beyond P-1); with M ≤ P this is exactly the original
floor(P/M) formula. -/
theorem range_assignment_formula (now : Nat) (g t m : String) (s : ServerState)
    (ms : List String) (row : TopicRow) (i M P : Nat)
    (hms : liveSorted now g s = ms) (hm : m ∈ ms) (hi : ms.indexOf m = i)
    (hM : ms.length = M) (ht : s.topics.find? (fun r => r.topic_name == t) = some row)
    (hP : row.partitions = P) :
    (get_group_assignments now g t m s).1 =
      if i = M - 1 then List.range' (i * max 1 (P / M)) (P - i * max 1 (P / M))
      else List.range' (i * max 1 (P / M))
        (min (i * max 1 (P / M) + max 1 (P / M)) P - i * max 1 (P / M)) := by
  rw [gga_fst_eq_rangeAssign now g t m s ms row hms hm ht, rangeAssign_eq, hi, hM, hP]

/-- Concrete broker for the C2 witness: topic "t" with 7 partitions,
three fresh members of group "g". -/
def stateC2w : ServerState :=
  ⟨[⟨"t", 7, 24⟩], [], [],
   [⟨"g", "a", 100⟩, ⟨"g", "b", 100⟩, ⟨"g", "c", 100⟩]⟩

/-- C2 witness: member "b" at index 1 of 3 with P = 7 receives the
block starting at 1 * max(1, 7/3) = 2, clipped at 7. -/
theorem range_assignment_formula_witness :
    (get_group_assignments 100 "g" "t" "b" stateC2w).1 =
      if 1 = 3 - 1 then List.range' (1 * max 1 (7 / 3)) (7 - 1 * max 1 (7 / 3))
      else List.range' (1 * max 1 (7 / 3))
        (min (1 * max 1 (7 / 3) + max 1 (7 / 3)) 7 - 1 * max 1 (7 / 3)) :=
  range_assignment_formula 100 "g" "t" "b" stateC2w ["a", "b", "c"] ⟨"t", 7, 24⟩ 1 3 7
    (by decide) (by decide) (by decide) (by decide) (by decide) (by decide)

/-- C3: for an existing topic with at least one partition and a
non-empty duplicate-free sorted live member list, the concatenation of
the partition lists get_group_assignments returns across all live
members is a permutation of 0..P-1 — every partition is owned exactly
once, so the union is all partitions and no partition belongs to two
members. -/
theorem range_assignment_cover_disjoint (now : Nat) (g t : String) (s : ServerState)
    (ms : List String) (row : TopicRow)
    (hms : liveSorted now g s = ms) (hne : ms ≠ []) (hnd : ms.Nodup)
    (ht : s.topics.find? (fun r => r.topic_name == t) = some row)
    (hP : 1 ≤ row.partitions) :
    ((ms.map (fun m => (get_group_assignments now g t m s).1)).flatten).Perm
      (List.range row.partitions) := by
  have hmap : ms.map (fun m => (get_group_assignments now g t m s).1) =
      ms.map (fun m => rangeAssign ms m row.partitions) :=
    List.map_eq_map_iff.mpr
      (fun m hm => gga_fst_eq_rangeAssign now g t m s ms row hms hm ht)
  rw [hmap]
  have hjoin : ((ms.map (fun m => rangeAssign ms m row.partitions)).flatten).Nodup := by
    rw [List.nodup_flatten]
    constructor
    · intro l hl
      rcases List.mem_map.1 hl with ⟨m, _, rfl⟩
      rw [rangeAssign_eq]
      split
      · exact List.nodup_range' _ _ 1 Nat.one_pos
      · exact List.nodup_range' _ _ 1 Nat.one_pos
    · rw [List.pairwise_map]
      refine hnd.imp_of_mem ?_
      intro m1 m2 hm1 hm2 hne12 q hq1 hq2
      exact rangeAssign_disjoint ms row.partitions m1 m2 hm1 hm2 hne12 q hq1 hq2
  refine (List.perm_ext_iff_of_nodup hjoin (List.nodup_range _)).2 ?_
  intro q
  rw [List.mem_flatten, List.mem_range]
  constructor
  · rintro ⟨l, hl, hql⟩
    rcases List.mem_map.1 hl with ⟨m, _, rfl⟩
    exact rangeAssign_lt ms m row.partitions q hql
  · intro hq
    rcases rangeAssign_cover ms row.partitions hnd hne q hq with ⟨m, hm, hqm⟩
    exact ⟨rangeAssign ms m row.partitions, List.mem_map.2 ⟨m, hm, rfl⟩, hqm⟩

/-- Concrete broker for the C3 witness: the P = 7, M = 3 scenario of
the specification. -/
def stateC3 : ServerState :=
  ⟨[⟨"t", 7, 24⟩], [], [],
   [⟨"g", "a", 100⟩, ⟨"g", "b", 100⟩, ⟨"g", "c", 100⟩]⟩

/-- C3 witness: with P = 7 and live members a, b, c the three returned
assignments concatenate to a permutation of 0..6. -/
theorem range_assignment_cover_disjoint_witness :
    ((["a", "b", "c"].map (fun m => (get_group_assignments 100 "g" "t" m stateC3).1)).flatten).Perm
      (List.range 7) :=
  range_assignment_cover_disjoint 100 "g" "t" stateC3 ["a", "b", "c"] ⟨"t", 7, 24⟩
    (by decide) (by decide) (by decide) (by decide) (by decide)

/-
C6 — retention cleanup versus the stored timestamp format.
-/

/-- Concrete broker for C6: topic "t" with retention 10 hours and one
message appended at 2026-10-12 20:00:00, three hours before the cleanup
run at 2026-10-12 23:00:00. -/
def stateC6 : ServerState :=
  ⟨[⟨"t", 1, 10⟩],
   [⟨"t", 0, 0, none, .pyint 7, ⟨2026, 10, 12, 20, 0, 0⟩⟩], [], []⟩

/-- C6: the cleanup cutoff instant 13:00 lies before the message's
append instant 20:00, so the message is inside the 10-hour retention
window; yet after cleanup_old_messages the message is gone from both
consume_messages and the get_topic_info count, because the stored
CURRENT_TIMESTAMP text "2026-10-12 20:00:00" compares below the
isoformat cutoff text "2026-10-12T13:00:00" (the space sorts before the
"T" under the BINARY collation). -/
theorem cleanup_deletes_within_retention :
    dtKey (minusHours ⟨2026, 10, 12, 23, 0, 0⟩ 10) < dtKey ⟨2026, 10, 12, 20, 0, 0⟩ ∧
      sqliteTimestamp ⟨2026, 10, 12, 20, 0, 0⟩ = "2026-10-12 20:00:00" ∧
      isoTimestamp (minusHours ⟨2026, 10, 12, 23, 0, 0⟩ 10) = "2026-10-12T13:00:00" ∧
      get_topic_info "t" stateC6 = some ⟨1, 1⟩ ∧
      consume_messages "t" 0 none 100
          (cleanup_old_messages ⟨2026, 10, 12, 23, 0, 0⟩ stateC6) = [] ∧
      get_topic_info "t" (cleanup_old_messages ⟨2026, 10, 12, 23, 0, 0⟩ stateC6) =
        some ⟨1, 0⟩ :=
  ⟨by decide, by decide, by decide, by decide, by decide, by decide⟩

/-
C7 — the producer serialization path.
-/

/-- C7 counterexample: sending the falsy value 0 with a serializer that
returns the string "SER" stores None — the configured value_serializer
is not applied, because SimpleKafkaProducer.send guards it with the
Python truthiness test `if value`. -/
theorem producer_skips_serializer_on_falsy :
    ((producer_send (fun _ => none) (fun _ => PyObj.pystr "SER") "t" (PyObj.pyint 0) none 0
        ⟨2026, 1, 1, 0, 0, 0⟩ initState).2.messages.map (·.value)) = [PyObj.pynone] ∧
      PyObj.pynone ≠ PyObj.pystr "SER" :=
  ⟨by decide, by decide⟩

/-- C7 amended: for every truthy value the configured value_serializer
is applied before transmission (followed by the opportunistic bytes
decode), the record handed to the broker carries the serialized value,
and the future-like handle resolves to the record's topic, partition
and assigned offset; a falsy value is transmitted as None without the
serializer running. -/
theorem producer_send_serializes_truthy (jsonLoads : String → Option PyObj)
    (serializer : PyObj → PyObj) (t : String) (v : PyObj) (key : Option String)
    (p : Nat) (now : DateTime) (s : ServerState) (h : truthy v = true) :
    producer_send jsonLoads serializer t v key p now s =
      ((t, p, (send_message t (bytesDecode jsonLoads (serializer v)) key p now s).1),
        (send_message t (bytesDecode jsonLoads (serializer v)) key p now s).2) := by
  unfold producer_send
  simp [h]

/-- C7 witness: a truthy string payload with the identity serializer
satisfies the hypothesis and the resolved metadata carries the assigned
offset 0. -/
theorem producer_send_serializes_truthy_witness :
    truthy (PyObj.pystr "x") = true ∧
      producer_send (fun _ => (none : Option PyObj)) (fun v => v) "t" (PyObj.pystr "x") none 0
          ⟨2026, 1, 1, 0, 0, 0⟩ initState =
        (("t", 0,
            (send_message "t" (bytesDecode (fun _ => (none : Option PyObj)) (PyObj.pystr "x"))
              none 0 ⟨2026, 1, 1, 0, 0, 0⟩ initState).1),
          (send_message "t" (bytesDecode (fun _ => (none : Option PyObj)) (PyObj.pystr "x"))
            none 0 ⟨2026, 1, 1, 0, 0, 0⟩ initState).2) :=
  ⟨by decide,
   producer_send_serializes_truthy (fun _ => (none : Option PyObj)) (fun v => v) "t"
     (PyObj.pystr "x") none 0 ⟨2026, 1, 1, 0, 0, 0⟩ initState (by decide)⟩

end DwKafka
